import Mathlib

/-!
Verification of the sysinfo_influxdb core (src/main.go).

Shallow embedding of the concurrent sampling orchestrator and the stateful
rate-normalization engine of `sysinfo_influxdb`:

* the measurement table (`influxClient.Series`) as `Series`;
* the raw snapshot cache `last_series : map[string][][]interface{}` as an
  association list `Cache`;
* the diff engine `DiffFromLast` (main.go:286-338);
* the gathering functions `cpu`, `mem`, `swap`, `uptime`, `load`, `network`,
  `mounts` (main.go:346-591), each modelled as a function from the data its
  OS source would deliver to the list of values it writes on the result
  channel together with the updated cache;
* the per-lap fan-in / retry / sleep logic of `main` (main.go:193-247).

Modelling conventions:

* Go's dynamically typed `interface{}` cells become the inductive `Value`;
  Go `int`/`uint` (64-bit on the platforms this daemon targets) are mapped to
  the 64-bit widths.  `float64` payloads (uptime, load averages) are carried
  as exact rationals: the code never performs arithmetic on them.
* The global `consistencyFactor` (a `float64`) is modelled as an exact
  rational parameter `f`; the multiplication `float64(new-old) * f` followed
  by the conversion back to the integer width is modelled as exact rational
  multiplication truncated toward zero, which agrees with the Go code
  whenever the intermediate values are exactly representable in `float64`
  (in particular for every concrete instance evaluated below).
* Go's wrapping machine arithmetic is made explicit with `% 2^w`.
* A failed type assertion (`tmp.(int8)` when the cached cell has a different
  dynamic type) panics in Go; the embedding returns `none` at top level in
  that case, so `DiffFromLast` and the samplers that call it produce
  `Option` results whose `none` stands for a runtime panic.
-/

set_option linter.unusedVariables false

namespace SysinfoInfluxdb

/-- Machine integer widths handled by the type switch of `DiffFromLast`. -/
inductive Width where
  | w8 | w16 | w32 | w64
  deriving DecidableEq, Repr

/-- Number of bits of a width. -/
def Width.bits : Width → Nat
  | .w8 => 8
  | .w16 => 16
  | .w32 => 32
  | .w64 => 64

/-- A dynamically typed cell of a measurement table (`interface{}` in Go).
`intv w n` / `uintv w n` are the signed/unsigned machine integers of width
`w` (Go `int`, `uint` are `w64`); `float` carries a `float64` payload on
which the program never computes; `str` is a string cell. -/
inductive Value where
  | str (s : String)
  | intv (w : Width) (n : Int)
  | uintv (w : Width) (n : Nat)
  | float (q : ℚ)
  deriving DecidableEq, Repr

/-- `influxClient.Series`: a measurement table. -/
structure Series where
  Name : String
  Columns : List String
  Points : List (List Value)
  deriving DecidableEq, Repr

/-- The raw snapshot cache `last_series : map[string][][]interface{}`,
modelled as an association list from table name to cached rows. -/
abbrev Cache := List (String × List (List Value))

/-- Map lookup on the cache. -/
def cacheFind : Cache → String → Option (List (List Value))
  | [], _ => none
  | (k, v) :: rest, n => if k = n then some v else cacheFind rest n

/-- Map store on the cache (replaces the binding if present). -/
def cacheSet : Cache → String → List (List Value) → Cache
  | [], n, v => [(n, v)]
  | (k, w) :: rest, n, v =>
    if k = n then (k, v) :: rest else (k, w) :: cacheSet rest n v

/-- Truncation of a rational toward zero, the rounding Go performs when a
`float64` is converted back to an integer type. -/
def truncQ (q : ℚ) : Int :=
  q.num.tdiv q.den

/-- Reduce an integer to the unsigned width `w` (`% 2^w`, as Go's unsigned
arithmetic and int-to-unsigned conversions do). -/
def wrapU (w : Width) (x : Int) : Nat :=
  (x % ((2 : Int) ^ w.bits)).toNat

/-- Reduce an integer to the signed two's-complement width `w`. -/
def wrapS (w : Width) (x : Int) : Int :=
  ((x + 2 ^ (w.bits - 1)) % 2 ^ w.bits) - 2 ^ (w.bits - 1)

/-- One arm of the type switch of `DiffFromLast` (main.go:308-329): given the
new raw cell and the value `tmp` it is diffed against, produce the value
stored back into the table.  Numeric cells become
`T(float64(new - tmp) * consistencyFactor)` with the subtraction performed in
the cell's machine width; cells whose dynamic type has no case (strings,
floats) are left untouched.  `none` models the panic of the type assertion
`tmp.(T)` when the cached value has a different dynamic type.  A scaled
value that no longer fits the width is reduced to it with `wrapS`/`wrapU`
(Go leaves the out-of-range float-to-integer conversion
implementation-defined; every instance evaluated below stays in range). -/
def diffVal (f : ℚ) : Value → Value → Option Value
  | .str s, _ => some (.str s)
  | .float q, _ => some (.float q)
  | .intv w n, .intv w' t =>
    if w = w' then some (.intv w (wrapS w (truncQ (f * (wrapS w (n - t) : ℤ))))) else none
  | .intv _ _, _ => none
  | .uintv w n, .uintv w' t =>
    if w = w' then
      some (.uintv w (wrapU w (truncQ (f * (wrapU w ((n : Int) - (t : Int)) : ℕ)))))
    else none
  | .uintv _ _, _ => none

/-- Inner loop of `DiffFromLast` (main.go:297-330) over one row: pairs the
new row with the cached row.  A cell with no cached predecessor takes the
new-baseline branch (`tmp = new`, incomplete flag set, raw value appended to
the cache row); a cell with a predecessor is diffed against it and the cache
cell is overwritten with the raw value.  Cached cells beyond the end of the
new row persist.  Returns (diffed row, updated cache row, incomplete flag). -/
def diffRow (f : ℚ) : List Value → List Value → Option (List Value × List Value × Bool)
  | [], old => some ([], old, false)
  | v :: vs, [] =>
    match diffVal f v v, diffRow f vs [] with
    | some d, some (ds, cr, _) => some (d :: ds, v :: cr, true)
    | _, _ => none
  | v :: vs, o :: os =>
    match diffVal f v o, diffRow f vs os with
    | some d, some (ds, cr, inc) => some (d :: ds, v :: cr, inc)
    | _, _ => none

/-- Outer loop of `DiffFromLast` (main.go:293-331) over the rows of the
table: a row with no cached counterpart is processed against the freshly
appended empty cache row; cached rows beyond the end of the table persist. -/
def diffTable (f : ℚ) : List (List Value) → List (List Value) →
    Option (List (List Value) × List (List Value) × Bool)
  | [], old => some ([], old, false)
  | r :: rs, [] =>
    match diffRow f r [], diffTable f rs [] with
    | some (dr, cr, i1), some (drs, crs, i2) => some (dr :: drs, cr :: crs, i1 || i2)
    | _, _ => none
  | r :: rs, o :: os =>
    match diffRow f r o, diffTable f rs os with
    | some (dr, cr, i1), some (drs, crs, i2) => some (dr :: drs, cr :: crs, i1 || i2)
    | _, _ => none

/-- `DiffFromLast` (main.go:286-338).  `f` is the global
`consistencyFactor`, `last` the global `last_series` cache.  The function
mutates its argument in place in Go; the embedding returns the triple
(value returned, mutated argument, updated cache), `none` standing for a
type-assertion panic.  The returned value is `nil` (`none`) when some cell
had no cached predecessor, and otherwise the mutated table itself. -/
def DiffFromLast (f : ℚ) (serie : Series) (last : Cache) :
    Option (Option Series × Series × Cache) :=
  match diffTable f serie.Points ((cacheFind last serie.Name).getD []) with
  | none => none
  | some (pts, crows, inc) =>
    let mutated : Series := { Name := serie.Name, Columns := serie.Columns, Points := pts }
    some (if inc then none else some mutated, mutated, cacheSet last serie.Name crows)

/-- The value a numeric cell takes when diffed against itself (the
new-baseline branch computes `new - new = 0` scaled); non-numeric cells are
untouched. -/
def zeroOf : Value → Value
  | .intv w _ => .intv w 0
  | .uintv w _ => .uintv w 0
  | v => v

/-- The cache row left behind by one row of `DiffFromLast`: the raw new
cells, followed by whatever stale cached cells extended beyond them. -/
def cacheMergeRow (nr old : List Value) : List Value :=
  nr ++ old.drop nr.length

/-- The cache left behind by `DiffFromLast` for a table: row-wise
`cacheMergeRow`, stale cached rows beyond the table persisting. -/
def cacheMerge : List (List Value) → List (List Value) → List (List Value)
  | [], old => old
  | r :: rs, [] => cacheMergeRow r [] :: cacheMerge rs []
  | r :: rs, o :: os => cacheMergeRow r o :: cacheMerge rs os

/-- `shapeCovered np old` holds when every cell of the table `np` has a
cached predecessor in `old` — exactly the condition under which
`DiffFromLast` does not set `notComplete`. -/
def shapeCovered : List (List Value) → List (List Value) → Bool
  | [], _ => true
  | r :: rs, [] => r.isEmpty && shapeCovered rs []
  | r :: rs, o :: os => (decide (r.length ≤ o.length)) && shapeCovered rs os

/-! ## Sampler (gathering) functions

Each Go gathering function receives the data its OS source would deliver as
an explicit argument, and returns the list of values it writes on the shared
result channel (`ch <- ...`) together with the cache left behind, wrapped in
`Option` (`none` = runtime panic inside `DiffFromLast`).  A sampler that
returns without writing anything produces an empty send list — this is
exactly what `network`, `disks` and `mounts` do on an open/statfs error. -/

/-- A proc file as seen by a sampler: unopenable, or a list of lines. -/
inductive FileSrc where
  | openFailure
  | ok (lines : List String)
  deriving DecidableEq, Repr

/-- Go `strings.Trim(s, " ")`. -/
def trimSpaces (s : String) : String :=
  (s.dropWhile (· = ' ')).dropRightWhile (· = ' ')

/-- Go `strings.Fields`: split around runs of whitespace. -/
def goFields (s : String) : List String :=
  (s.split Char.isWhitespace).filter (· ≠ "")

/-- Go `strconv.Atoi`: optional sign, decimal digits, must fit in `int64`
(values out of range return an error, which the callers turn into `0`). -/
def atoi? (s : String) : Option Int :=
  let (sign, rest) :=
    if s.startsWith "-" then ((-1 : Int), s.drop 1)
    else if s.startsWith "+" then ((1 : Int), s.drop 1)
    else ((1 : Int), s)
  match rest.toNat? with
  | none => none
  | some n =>
    let v := sign * (n : Int)
    if -(2 ^ 63) ≤ v ∧ v < 2 ^ 63 then some v else none

/-- Shorthand for the `uint64` cells the gosigar-based samplers emit. -/
def u64 (n : Nat) : Value := .uintv .w64 n

/-- `sigar.Cpu` (all fields `uint64`). -/
structure CpuT where
  User : Nat
  Nice : Nat
  Sys : Nat
  Idle : Nat
  Wait : Nat
  Irq : Nat
  SoftIrq : Nat
  Stolen : Nat
  deriving DecidableEq, Repr

/-- `sigar.Cpu.Total()`: the wrapping `uint64` sum of all fields. -/
def CpuT.total (c : CpuT) : Nat :=
  (c.User + c.Nice + c.Sys + c.Idle + c.Wait + c.Irq + c.SoftIrq + c.Stolen) % 2 ^ 64

/-- `cpu` (main.go:346-362): on a sigar error sends `nil`; otherwise builds
the one-row table and sends the result of `DiffFromLast`. -/
def cpu (pfx : String) (src : Option CpuT) (f : ℚ) (last : Cache) :
    Option (List (Option Series) × Cache) :=
  match src with
  | none => some ([none], last)
  | some d =>
    let serie : Series :=
      { Name := pfx ++ "cpu"
        Columns := ["id", "user", "nice", "sys", "idle", "wait", "total"]
        Points := [[.str "cpu", u64 d.User, u64 d.Nice, u64 d.Sys, u64 d.Idle,
                    u64 d.Wait, u64 d.total]] }
    match DiffFromLast f serie last with
    | none => none
    | some (res, _, last') => some ([res], last')

/-- `sigar.Mem` (all fields `uint64`). -/
structure MemT where
  Free : Nat
  Used : Nat
  ActualFree : Nat
  ActualUsed : Nat
  Total : Nat
  deriving DecidableEq, Repr

/-- `mem` (main.go:381-397): sends `nil` on error, otherwise the raw table —
`DiffFromLast` is never invoked and the cache is untouched. -/
def mem (pfx : String) (src : Option MemT) (last : Cache) :
    Option (List (Option Series) × Cache) :=
  match src with
  | none => some ([none], last)
  | some m =>
    some ([some { Name := pfx ++ "mem"
                  Columns := ["free", "used", "actualfree", "actualused", "total"]
                  Points := [[u64 m.Free, u64 m.Used, u64 m.ActualFree,
                              u64 m.ActualUsed, u64 m.Total]] }], last)

/-- `sigar.Swap` (all fields `uint64`). -/
structure SwapT where
  Free : Nat
  Used : Nat
  Total : Nat
  deriving DecidableEq, Repr

/-- `swap` (main.go:399-415): raw table, no diff, cache untouched. -/
def swap (pfx : String) (src : Option SwapT) (last : Cache) :
    Option (List (Option Series) × Cache) :=
  match src with
  | none => some ([none], last)
  | some s =>
    some ([some { Name := pfx ++ "swap"
                  Columns := ["free", "used", "total"]
                  Points := [[u64 s.Free, u64 s.Used, u64 s.Total]] }], last)

/-- `uptime` (main.go:417-433): `sigar.Uptime.Length` is a `float64`,
carried as an exact rational; raw table, no diff, cache untouched. -/
def uptime (pfx : String) (src : Option ℚ) (last : Cache) :
    Option (List (Option Series) × Cache) :=
  match src with
  | none => some ([none], last)
  | some len =>
    some ([some { Name := pfx ++ "uptime"
                  Columns := ["length"]
                  Points := [[.float len]] }], last)

/-- `load` (main.go:435-451): the three `float64` load averages; raw table,
no diff, cache untouched. -/
def load (pfx : String) (src : Option (ℚ × ℚ × ℚ)) (last : Cache) :
    Option (List (Option Series) × Cache) :=
  match src with
  | none => some ([none], last)
  | some (one, five, fifteen) =>
    some ([some { Name := pfx ++ "load"
                  Columns := ["one", "five", "fifteen"]
                  Points := [[.float one, .float five, .float fifteen]] }], last)

/-- Column list of the `network` table (main.go:462-468). -/
def networkColumns : List String :=
  ["iface",
   "recv_bytes", "recv_packets", "recv_errs",
   "recv_drop", "recv_fifo", "recv_frame",
   "recv_compressed", "recv_multicast",
   "trans_bytes", "trans_packets", "trans_errs",
   "trans_drop", "trans_fifo", "trans_colls",
   "trans_carrier", "trans_compressed"]

/-- Scan loop of `network` (main.go:475-504) over the post-header lines of
`/proc/net/dev`: a line without a `:` aborts with `none` (the code sends
`nil` and returns there); otherwise the interface name and the 16 counters
(`strconv.Atoi`, `0` on parse error) form a row.  (A line whose right-hand
side has fewer than 16 fields would make Go panic on the slice index; the
embedding reads the missing fields as `""`, i.e. `0` — no claim touches that
path.) -/
def netParse : List String → Option (List (List Value))
  | [] => some []
  | l :: ls =>
    let tmp := l.splitOn ":"
    if tmp.length < 2 then none
    else
      let iface := trimSpaces (tmp[0]?.getD "")
      let fs := goFields (tmp[1]?.getD "")
      let nums := (List.range 16).map
        (fun i => Value.intv .w64 ((atoi? (fs[i]?.getD "")).getD 0))
      match netParse ls with
      | none => none
      | some rest => some ((Value.str iface :: nums) :: rest)

/-- `network` (main.go:453-508).  On an open failure the Go code does
`return err` **without writing anything to the channel** — the send list is
empty.  The scanner skips the two header lines; a malformed line sends `nil`;
otherwise the built table goes through `DiffFromLast` and the result is
sent. -/
def network (pfx : String) (src : FileSrc) (f : ℚ) (last : Cache) :
    Option (List (Option Series) × Cache) :=
  match src with
  | .openFailure => some ([], last)
  | .ok lines =>
    match netParse (lines.drop 2) with
    | none => some ([none], last)
    | some pts =>
      let serie : Series :=
        { Name := pfx ++ "network", Columns := networkColumns, Points := pts }
      match DiffFromLast f serie last with
      | none => none
      | some (res, _, last') => some ([res], last')

/-- "in_array" style helper for strings (main.go:101-108). -/
def stringInSlice (a : String) (list : List String) : Bool :=
  list.any (fun b => b = a)

/-- The deny-list of virtual filesystem types of `mounts` (main.go:567). -/
def sysfs : List String :=
  ["binfmt_misc", "cgroup", "configfs", "debugfs", "devpts", "devtmpfs",
   "efivarfs", "fusectl", "mqueue", "none", "proc", "rootfs", "securityfs",
   "sysfs", "rpc_pipefs", "fuse.gvfsd-fuse", "tmpfs"]

/-- `syscall.Statfs_t`, the fields `mounts` reads (`Bsize` is `int64`). -/
structure StatfsT where
  Bsize : Int
  Bfree : Nat
  Blocks : Nat
  deriving DecidableEq, Repr

/-- Scan loop of `mounts` (main.go:569-587): for each non-virtual mount,
ask statfs (modelled as an association list from mountpoint to data; a
missing entry is a syscall error, on which the Go code does `return err`
without sending — modelled as overall `none`) and compute
`free = Bfree * uint64(Bsize)`, `total = Blocks * uint64(Bsize)` in wrapping
`uint64` arithmetic.  (A line with fewer than three fields would make Go
panic on `tmp[2]`; the embedding reads missing fields as `""` — no claim
touches that path.) -/
def mountsScan (statfs : List (String × StatfsT)) : List String → Option (List (List Value))
  | [] => some []
  | l :: ls =>
    let tmp := goFields l
    if stringInSlice (tmp[2]?.getD "") sysfs = false ∧ tmp[0]?.getD "" ≠ "none" then
      match statfs.lookup (tmp[1]?.getD "") with
      | none => none
      | some fs =>
        let bsizeU := ((fs.Bsize % (2 : Int) ^ 64).toNat)
        let freeBytes := (fs.Bfree * bsizeU) % 2 ^ 64
        let totalBytes := (fs.Blocks * bsizeU) % 2 ^ 64
        match mountsScan statfs ls with
        | none => none
        | some rest =>
          some ([.str (tmp[1]?.getD ""), .str (tmp[0]?.getD ""),
                 u64 freeBytes, u64 totalBytes] :: rest)
    else mountsScan statfs ls

/-- `mounts` (main.go:553-591): on an open failure or a statfs error the Go
code does `return err` **without writing anything to the channel**; on
success it sends the raw table — no diff, cache untouched. -/
def mounts (pfx : String) (src : FileSrc) (statfs : List (String × StatfsT))
    (last : Cache) : Option (List (Option Series) × Cache) :=
  match src with
  | .openFailure => some ([], last)
  | .ok lines =>
    match mountsScan statfs lines with
    | none => some ([], last)
    | some pts =>
      some ([some { Name := pfx ++ "mounts"
                    Columns := ["mountpoint", "disk", "free", "total"]
                    Points := pts }], last)

/-! ## Orchestrator lap logic (main.go:193-247) -/

/-- Fan-in loop of `main` (main.go:203-214): consume one result per
configured sampler, in arrival order; non-`nil` results are collected,
and in non-daemon mode a `nil` result sets the retry flag `first`.
Returns (collected data, `first`). -/
def fanIn (daemonFlag : Bool) (results : List (Option Series)) :
    List Series × Bool :=
  (results.filterMap id, !daemonFlag && results.any Option.isNone)

/-- Observable outcome of one iteration of the main loop. -/
structure LapTrace where
  emitted : Option (List Series)
  slept : Bool
  again : Bool
  deriving DecidableEq, Repr

/-- One iteration of the main loop (main.go:193-247) after the sampler
results have arrived: display/send happens only when the retry flag is not
set (main.go:216-242); `time.Sleep(daemonIntervalFlag)` runs whenever
`daemonFlag || first` (main.go:244-246); the loop runs again under the same
condition (main.go:193). -/
def lapStep (daemonFlag : Bool) (results : List (Option Series)) : LapTrace :=
  let (data, first) := fanIn daemonFlag results
  { emitted := if first then none else some data
    slept := daemonFlag || first
    again := daemonFlag || first }

/-! ## Lemmas about the diff engine -/

theorem wrapS_zero (w : Width) : wrapS w 0 = 0 := by
  cases w <;> decide

theorem wrapU_zero (w : Width) : wrapU w 0 = 0 := by
  cases w <;> decide

theorem truncQ_zero : truncQ 0 = 0 := by
  simp [truncQ]

/-- Diffing a value against itself yields `0` for numeric cells and the
value itself otherwise — and never panics. -/
theorem diffVal_self (f : ℚ) (v : Value) : diffVal f v v = some (zeroOf v) := by
  cases v <;> simp [diffVal, zeroOf, wrapS_zero, wrapU_zero, truncQ_zero]

theorem cacheMergeRow_nil (nr : List Value) : cacheMergeRow nr [] = nr := by
  simp [cacheMergeRow]

theorem cacheMergeRow_cons (v o : Value) (vs os : List Value) :
    cacheMergeRow (v :: vs) (o :: os) = v :: cacheMergeRow vs os := by
  simp [cacheMergeRow]

theorem cacheMergeRow_get_lt (nr old : List Value) (j : Nat) (v : Value)
    (h : nr[j]? = some v) : (cacheMergeRow nr old)[j]? = some v := by
  have hj : j < nr.length := by
    by_contra hle
    simp [List.getElem?_eq_none (Nat.le_of_not_lt hle)] at h
  simp [cacheMergeRow, List.getElem?_append, hj, h]

theorem cacheMergeRow_get_ge (nr old : List Value) (j : Nat)
    (h : nr.length ≤ j) : (cacheMergeRow nr old)[j]? = old[j]? := by
  rw [cacheMergeRow, List.getElem?_append_right h, List.getElem?_drop,
    Nat.add_sub_cancel' h]

/-- Full behaviour of the inner cell loop on one row: the diffed row has the
same length, the cache row is the raw new cells followed by the stale
remainder, the incomplete flag is set exactly when the new row is longer
than the cached one, and each diffed cell is the diff of the new cell
against its cached predecessor (or against itself when there is none). -/
theorem diffRow_spec (f : ℚ) (nr : List Value) : ∀ (old d cr : List Value) (inc : Bool),
    diffRow f nr old = some (d, cr, inc) →
    d.length = nr.length ∧
    cr = cacheMergeRow nr old ∧
    inc = decide (old.length < nr.length) ∧
    ∀ (j : Nat) (v : Value), nr[j]? = some v → d[j]? = diffVal f v ((old[j]?).getD v) := by
  induction nr with
  | nil =>
    intro old d cr inc h
    simp [diffRow] at h
    obtain ⟨rfl, rfl, rfl⟩ := h
    simp [cacheMergeRow]
  | cons v vs ih =>
    intro old d cr inc h
    cases old with
    | nil =>
      rw [diffRow] at h
      cases hv : diffVal f v v with
      | none => simp [hv] at h
      | some dv =>
        cases hr : diffRow f vs [] with
        | none => simp [hv, hr] at h
        | some tr =>
          obtain ⟨ds, cr', inc'⟩ := tr
          simp [hv, hr] at h
          obtain ⟨rfl, rfl, rfl⟩ := h
          obtain ⟨hlen, hcr, hinc, hget⟩ := ih [] ds cr' inc' hr
          refine ⟨by simp [hlen], by simp [hcr, cacheMergeRow], by simp, ?_⟩
          intro j w hj
          cases j with
          | zero =>
            simp at hj
            subst hj
            simp [hv]
          | succ j =>
            simp at hj ⊢
            simpa using hget j w hj
    | cons o os =>
      rw [diffRow] at h
      cases hv : diffVal f v o with
      | none => simp [hv] at h
      | some dv =>
        cases hr : diffRow f vs os with
        | none => simp [hv, hr] at h
        | some tr =>
          obtain ⟨ds, cr', inc'⟩ := tr
          simp [hv, hr] at h
          obtain ⟨rfl, rfl, rfl⟩ := h
          obtain ⟨hlen, hcr, hinc, hget⟩ := ih os ds cr' inc' hr
          refine ⟨by simp [hlen], by simp [hcr, cacheMergeRow_cons], ?_, ?_⟩
          · simpa using hinc
          · intro j w hj
            cases j with
            | zero =>
              simp at hj
              subst hj
              simp [hv]
            | succ j =>
              simp at hj ⊢
              simpa using hget j w hj

theorem decide_pos_length_eq (r : List Value) :
    decide (0 < r.length) = !r.isEmpty := by
  cases r <;> simp

theorem decide_lt_not_le (a b : Nat) : decide (a < b) = !decide (b ≤ a) := by
  by_cases h : b ≤ a
  · simp [h, Nat.not_lt.mpr h]
  · simp [h, Nat.not_le.mp h]

theorem cacheMerge_get_some (np : List (List Value)) :
    ∀ (op : List (List Value)) (i : Nat) (r : List Value), np[i]? = some r →
      (cacheMerge np op)[i]? = some (cacheMergeRow r ((op[i]?).getD [])) := by
  induction np with
  | nil => intro op i r h; simp at h
  | cons n ns ih =>
    intro op i r h
    cases op with
    | nil =>
      cases i with
      | zero => simp at h; subst h; simp [cacheMerge]
      | succ i => simp at h ⊢; simpa [cacheMerge] using ih [] i r h
    | cons o os =>
      cases i with
      | zero => simp at h; subst h; simp [cacheMerge]
      | succ i => simp at h ⊢; simpa [cacheMerge] using ih os i r h

theorem cacheMerge_get_ge (np : List (List Value)) :
    ∀ (op : List (List Value)) (i : Nat), np.length ≤ i →
      (cacheMerge np op)[i]? = op[i]? := by
  induction np with
  | nil => intro op i _; simp [cacheMerge]
  | cons n ns ih =>
    intro op i h
    cases op with
    | nil =>
      cases i with
      | zero => simp at h
      | succ i =>
        simp [cacheMerge]
        have := ih [] i (Nat.le_of_succ_le_succ h)
        simp at this
        simp [this]
    | cons o os =>
      cases i with
      | zero => simp at h
      | succ i => simpa [cacheMerge] using ih os i (Nat.le_of_succ_le_succ h)

theorem cacheMerge_length (np : List (List Value)) :
    ∀ op : List (List Value),
      (cacheMerge np op).length = max np.length op.length := by
  induction np with
  | nil => intro op; simp [cacheMerge]
  | cons n ns ih =>
    intro op
    cases op with
    | nil => simp [cacheMerge, ih]
    | cons o os => simp [cacheMerge, ih, Nat.succ_max_succ]

/-- Full behaviour of the outer row loop: lengths agree, the cache left
behind is `cacheMerge`, the incomplete flag is set exactly when the table's
shape is not covered by the cache, and each row of the output is the
`diffRow` of the corresponding input row against its cached row (the empty
row when there is none). -/
theorem diffTable_spec (f : ℚ) (np : List (List Value)) :
    ∀ (op dp cp : List (List Value)) (inc : Bool),
    diffTable f np op = some (dp, cp, inc) →
    dp.length = np.length ∧
    cp = cacheMerge np op ∧
    inc = !shapeCovered np op ∧
    ∀ (i : Nat) (r : List Value), np[i]? = some r →
      ∃ (dr cr : List Value) (i' : Bool),
        diffRow f r ((op[i]?).getD []) = some (dr, cr, i') ∧ dp[i]? = some dr := by
  induction np with
  | nil =>
    intro op dp cp inc h
    simp [diffTable] at h
    obtain ⟨rfl, rfl, rfl⟩ := h
    simp [cacheMerge, shapeCovered]
  | cons n ns ih =>
    intro op dp cp inc h
    cases op with
    | nil =>
      rw [diffTable] at h
      cases hr : diffRow f n [] with
      | none => simp [hr] at h
      | some tr =>
        obtain ⟨dr, cr, i1⟩ := tr
        cases ht : diffTable f ns [] with
        | none => simp [hr, ht] at h
        | some tt =>
          obtain ⟨drs, crs, i2⟩ := tt
          simp [hr, ht] at h
          obtain ⟨rfl, rfl, rfl⟩ := h
          obtain ⟨hlen, hcr, hinc, _⟩ := diffRow_spec f n [] dr cr i1 hr
          obtain ⟨hlen', hcp, hinc', hrow⟩ := ih [] drs crs i2 ht
          refine ⟨by simp [hlen'], by simp [hcp, hcr, cacheMerge], ?_, ?_⟩
          · simp [shapeCovered, hinc, hinc', decide_pos_length_eq]
          · intro i r hi
            cases i with
            | zero =>
              simp only [List.getElem?_cons_zero, Option.some_inj] at hi
              subst hi
              exact ⟨dr, cr, i1, by simpa using hr, by simp⟩
            | succ i =>
              simp only [List.getElem?_cons_succ] at hi ⊢
              obtain ⟨dr', cr', i'', h1, h2⟩ := hrow i r hi
              simp only [List.getElem?_nil, Option.getD_none] at h1 ⊢
              exact ⟨dr', cr', i'', by simpa using h1, h2⟩
    | cons o os =>
      rw [diffTable] at h
      cases hr : diffRow f n o with
      | none => simp [hr] at h
      | some tr =>
        obtain ⟨dr, cr, i1⟩ := tr
        cases ht : diffTable f ns os with
        | none => simp [hr, ht] at h
        | some tt =>
          obtain ⟨drs, crs, i2⟩ := tt
          simp [hr, ht] at h
          obtain ⟨rfl, rfl, rfl⟩ := h
          obtain ⟨hlen, hcr, hinc, _⟩ := diffRow_spec f n o dr cr i1 hr
          obtain ⟨hlen', hcp, hinc', hrow⟩ := ih os drs crs i2 ht
          refine ⟨by simp [hlen'], by simp [hcp, hcr, cacheMerge], ?_, ?_⟩
          · simp [shapeCovered, hinc, hinc', Bool.not_and, decide_lt_not_le]
          · intro i r hi
            cases i with
            | zero =>
              simp only [List.getElem?_cons_zero, Option.some_inj] at hi
              subst hi
              exact ⟨dr, cr, i1, by simpa using hr, by simp⟩
            | succ i =>
              simp only [List.getElem?_cons_succ] at hi ⊢
              exact hrow i r hi

theorem cacheFind_cacheSet_self (c : Cache) (n : String) (v : List (List Value)) :
    cacheFind (cacheSet c n v) n = some v := by
  induction c with
  | nil => simp [cacheSet, cacheFind]
  | cons kv rest ih =>
    obtain ⟨k, w⟩ := kv
    by_cases hk : k = n <;> simp [cacheSet, cacheFind, hk, ih]

/-- Destructor for a successful run of `DiffFromLast`: exposes the
underlying `diffTable` run, the mutated table, the returned value and the
cache left behind. -/
theorem DiffFromLast_eq_some (f : ℚ) (s : Series) (last : Cache)
    (res : Option Series) (s' : Series) (last' : Cache)
    (h : DiffFromLast f s last = some (res, s', last')) :
    ∃ (pts crows : List (List Value)) (inc : Bool),
      diffTable f s.Points ((cacheFind last s.Name).getD []) = some (pts, crows, inc) ∧
      s' = { Name := s.Name, Columns := s.Columns, Points := pts } ∧
      res = (if inc then none else some s') ∧
      last' = cacheSet last s.Name crows := by
  rw [DiffFromLast] at h
  cases ht : diffTable f s.Points ((cacheFind last s.Name).getD []) with
  | none => simp [ht] at h
  | some tr =>
    obtain ⟨pts, crows, inc⟩ := tr
    simp [ht] at h
    obtain ⟨rfl, rfl, rfl⟩ := h
    exact ⟨pts, crows, inc, rfl, rfl, rfl, rfl⟩

theorem truncQ_nonneg {q : ℚ} (h : 0 ≤ q) : 0 ≤ truncQ q :=
  Int.tdiv_nonneg (Rat.num_nonneg.mpr h) (Int.ofNat_nonneg _)

/-- `wrapS` is the identity on values that fit the signed width. -/
theorem wrapS_id (w : Width) (x : Int)
    (hlo : -(2 ^ (w.bits - 1)) ≤ x) (hhi : x < 2 ^ (w.bits - 1)) :
    wrapS w x = x := by
  cases w <;> simp [wrapS, Width.bits] at hlo hhi ⊢ <;> omega

/-- The delta branch on an in-range signed counter computes the exact
scaled difference. -/
theorem diffVal_int_delta (f : ℚ) (w : Width) (r1 r2 : Int)
    (hlo : -(2 ^ (w.bits - 1)) ≤ r2 - r1) (hhi : r2 - r1 < 2 ^ (w.bits - 1))
    (hlo' : -(2 ^ (w.bits - 1)) ≤ truncQ (f * ((r2 - r1 : ℤ) : ℚ)))
    (hhi' : truncQ (f * ((r2 - r1 : ℤ) : ℚ)) < 2 ^ (w.bits - 1)) :
    diffVal f (.intv w r2) (.intv w r1) =
      some (.intv w (truncQ (f * ((r2 - r1 : ℤ) : ℚ)))) := by
  simp only [diffVal, if_pos]
  rw [wrapS_id w (r2 - r1) hlo hhi, wrapS_id w _ hlo' hhi']

/-- The delta branch on an in-range unsigned counter increase computes the
exact scaled difference. -/
theorem diffVal_uint_delta (f : ℚ) (w : Width) (r1 r2 : Nat)
    (h12 : r1 ≤ r2) (hr2 : r2 < 2 ^ w.bits) (hf : 0 ≤ f)
    (hd : truncQ (f * ((r2 - r1 : ℕ) : ℚ)) < (2 : ℤ) ^ w.bits) :
    diffVal f (.uintv w r2) (.uintv w r1) =
      some (.uintv w (truncQ (f * ((r2 - r1 : ℕ) : ℚ))).toNat) := by
  have h1 : wrapU w ((r2 : ℤ) - (r1 : ℤ)) = r2 - r1 := by
    cases w <;> simp [wrapU, Width.bits] at hr2 ⊢ <;> omega
  have h0 : 0 ≤ truncQ (f * ((r2 - r1 : ℕ) : ℚ)) :=
    truncQ_nonneg (mul_nonneg hf (Nat.cast_nonneg _))
  simp only [diffVal, if_pos]
  rw [h1, wrapU, Int.emod_eq_of_lt h0 hd]

/-- The delta branch on an unsigned counter decrease (reset) wraps the
subtraction modulo `2^w` before scaling. -/
theorem diffVal_uint_wrap (f : ℚ) (w : Width) (p n : Nat)
    (hp : p < 2 ^ w.bits) (hn : n < p) (hf : 0 ≤ f)
    (hd : truncQ (f * ((2 ^ w.bits + n - p : ℕ) : ℚ)) < (2 : ℤ) ^ w.bits) :
    diffVal f (.uintv w n) (.uintv w p) =
      some (.uintv w (truncQ (f * ((2 ^ w.bits + n - p : ℕ) : ℚ))).toNat) := by
  have h1 : wrapU w ((n : ℤ) - (p : ℤ)) = 2 ^ w.bits + n - p := by
    cases w <;> simp [wrapU, Width.bits] at hp ⊢ <;> omega
  have h0 : 0 ≤ truncQ (f * ((2 ^ w.bits + n - p : ℕ) : ℚ)) :=
    truncQ_nonneg (mul_nonneg hf (Nat.cast_nonneg _))
  simp only [diffVal, if_pos]
  rw [h1, wrapU, Int.emod_eq_of_lt h0 hd]

/-! ## Claims -/

/-- C7: after every call to `DiffFromLast` on a table, for every row `i` and
column `j` of that table the snapshot-cache entry for the table's name at
`(i, j)` equals the raw input value of this lap — the cache is updated
whether the cell took the new-baseline branch or the delta branch. -/
theorem diff_cache_updated_to_raw (f : ℚ) (s : Series) (last : Cache)
    (res : Option Series) (s' : Series) (last' : Cache)
    (h : DiffFromLast f s last = some (res, s', last')) :
    ∃ crows, cacheFind last' s.Name = some crows ∧
      ∀ (i j : Nat) (r : List Value) (v : Value),
        s.Points[i]? = some r → r[j]? = some v →
        ∃ cr, crows[i]? = some cr ∧ cr[j]? = some v := by
  obtain ⟨pts, crows, inc, ht, hs', hres, hlast'⟩ :=
    DiffFromLast_eq_some f s last res s' last' h
  obtain ⟨_, hcp, _, _⟩ :=
    diffTable_spec f s.Points ((cacheFind last s.Name).getD []) pts crows inc ht
  subst hcp hlast'
  refine ⟨cacheMerge s.Points ((cacheFind last s.Name).getD []),
    cacheFind_cacheSet_self _ _ _, ?_⟩
  intro i j r v hi hj
  exact ⟨cacheMergeRow r ((((cacheFind last s.Name).getD [])[i]?).getD []),
    cacheMerge_get_some s.Points _ i r hi, cacheMergeRow_get_lt r _ j v hj⟩

/-- C7 witness: a fresh one-cell table; the cache afterwards holds its raw
value `5`. -/
theorem diff_cache_updated_to_raw_witness :
    ∃ crows, cacheFind [("h.cpu", [[Value.uintv .w64 5]])] "h.cpu" = some crows ∧
      ∀ (i j : Nat) (r : List Value) (v : Value),
        (Series.mk "h.cpu" ["total"] [[.uintv .w64 5]]).Points[i]? = some r →
        r[j]? = some v →
        ∃ cr, crows[i]? = some cr ∧ cr[j]? = some v := by
  have h := diff_cache_updated_to_raw 1 ⟨"h.cpu", ["total"], [[.uintv .w64 5]]⟩ []
    none ⟨"h.cpu", ["total"], [[.uintv .w64 0]]⟩ [("h.cpu", [[.uintv .w64 5]])]
    (by simp [DiffFromLast, diffTable, diffRow, diffVal, cacheFind, cacheSet,
      wrapU, truncQ])
  simpa using h

/-- C2 counterexample: a numeric cell with no previous value is reported as
`0` (the scaled delta of the raw value against itself), not as the raw value
`100`: the new-baseline branch sets `tmp` to the new value itself
(main.go:300) and the type switch then computes `new - tmp = 0`. -/
theorem diff_fresh_cell_not_raw_counterexample :
    DiffFromLast 1 ⟨"h.cpu", ["total"], [[.uintv .w64 100]]⟩ []
      = some (none, ⟨"h.cpu", ["total"], [[.uintv .w64 0]]⟩,
          [("h.cpu", [[.uintv .w64 100]])])
    ∧ Value.uintv .w64 0 ≠ Value.uintv .w64 100 := by
  constructor
  · simp [DiffFromLast, diffTable, diffRow, diffVal, cacheFind, cacheSet,
      wrapU, truncQ]
  · decide

/-- C2 (amended): for every cell `(i, j)` with no previous value in the
snapshot cache, the value reported at that cell in the (mutated) output
table is the computed self-delta `zeroOf v` — `0` for integer cells, the raw
value only for non-numeric cells — not the raw value. -/
theorem diff_fresh_cell_reports_zero (f : ℚ) (s : Series) (last : Cache)
    (res : Option Series) (s' : Series) (last' : Cache)
    (h : DiffFromLast f s last = some (res, s', last'))
    (i j : Nat) (r : List Value) (v : Value)
    (hi : s.Points[i]? = some r) (hj : r[j]? = some v)
    (hfresh : ((((cacheFind last s.Name).getD [])[i]?).getD []).length ≤ j) :
    ∃ dr, s'.Points[i]? = some dr ∧ dr[j]? = some (zeroOf v) := by
  obtain ⟨pts, crows, inc, ht, hs', hres, hlast'⟩ :=
    DiffFromLast_eq_some f s last res s' last' h
  obtain ⟨_, _, _, hrow⟩ :=
    diffTable_spec f s.Points ((cacheFind last s.Name).getD []) pts crows inc ht
  obtain ⟨dr, cr, i', hdr, hget⟩ := hrow i r hi
  obtain ⟨_, _, _, hcell⟩ := diffRow_spec f r _ dr cr i' hdr
  refine ⟨dr, by simp [hs', hget], ?_⟩
  have hnone : ((((cacheFind last s.Name).getD [])[i]?).getD [])[j]? = none :=
    List.getElem?_eq_none hfresh
  have := hcell j v hj
  rw [hnone] at this
  simpa [diffVal_self] using this

/-- C2 witness: fresh signed cell `42` is reported as `0`. -/
theorem diff_fresh_cell_reports_zero_witness :
    ∃ dr, (Series.mk "h.net" ["recv_bytes"] [[Value.intv .w64 0]]).Points[0]?
        = some dr ∧ dr[0]? = some (zeroOf (Value.intv .w64 42)) := by
  have h := diff_fresh_cell_reports_zero 1
    ⟨"h.net", ["recv_bytes"], [[.intv .w64 42]]⟩ []
    none ⟨"h.net", ["recv_bytes"], [[.intv .w64 0]]⟩ [("h.net", [[.intv .w64 42]])]
    (by simp [DiffFromLast, diffTable, diffRow, diffVal_self, zeroOf,
      cacheFind, cacheSet])
    0 0 [.intv .w64 42] (.intv .w64 42) rfl rfl (by simp [cacheFind])
  simpa using h

/-- C5 counterexample: a table whose name has never been seen but which
contains no cells (here: zero rows, as a sampler may legitimately produce)
is returned as a *complete* result, not as the incomplete signal `nil`: the
cell loop never runs, so `notComplete` stays false. -/
theorem diff_fresh_empty_table_complete_counterexample :
    DiffFromLast 1 ⟨"h.cpus", ["id"], []⟩ []
      = some (some ⟨"h.cpus", ["id"], []⟩, ⟨"h.cpus", ["id"], []⟩,
          [("h.cpus", [])]) := by
  simp [DiffFromLast, diffTable, cacheFind, cacheSet]

/-- C5 (amended): for every table containing at least one cell with no
cached predecessor (`shapeCovered … = false`; in particular any *nonempty*
first-ever table), `DiffFromLast` returns the incomplete signal `nil` and
stores the raw value of every new cell as the baseline for the next lap.  A
never-seen table with no cells (zero rows, or only empty rows) is instead
returned as complete. -/
theorem diff_uncovered_incomplete_stores_raw (f : ℚ) (s : Series) (last : Cache)
    (res : Option Series) (s' : Series) (last' : Cache)
    (h : DiffFromLast f s last = some (res, s', last'))
    (huncov : shapeCovered s.Points ((cacheFind last s.Name).getD []) = false) :
    res = none ∧
    ∃ crows, cacheFind last' s.Name = some crows ∧
      ∀ (i j : Nat) (r : List Value) (v : Value),
        s.Points[i]? = some r → r[j]? = some v →
        ((((cacheFind last s.Name).getD [])[i]?).getD []).length ≤ j →
        ∃ cr, crows[i]? = some cr ∧ cr[j]? = some v := by
  obtain ⟨pts, crows, inc, ht, hs', hres, hlast'⟩ :=
    DiffFromLast_eq_some f s last res s' last' h
  obtain ⟨_, hcp, hinc, _⟩ :=
    diffTable_spec f s.Points ((cacheFind last s.Name).getD []) pts crows inc ht
  subst hcp hlast'
  refine ⟨by simp [hres, hinc, huncov], cacheMerge s.Points _,
    cacheFind_cacheSet_self _ _ _, ?_⟩
  intro i j r v hi hj _
  exact ⟨cacheMergeRow r ((((cacheFind last s.Name).getD [])[i]?).getD []),
    cacheMerge_get_some s.Points _ i r hi, cacheMergeRow_get_lt r _ j v hj⟩

/-- C5 witness: a nonempty never-seen table yields `nil` and its raw value
is cached. -/
theorem diff_uncovered_incomplete_stores_raw_witness :
    (none : Option Series) = none ∧
    ∃ crows, cacheFind [("h.disks", [[Value.intv .w64 7]])] "h.disks" = some crows ∧
      ∀ (i j : Nat) (r : List Value) (v : Value),
        (Series.mk "h.disks" ["read_ios"] [[.intv .w64 7]]).Points[i]? = some r →
        r[j]? = some v →
        ((((cacheFind ([] : Cache) "h.disks").getD [])[i]?).getD []).length ≤ j →
        ∃ cr, crows[i]? = some cr ∧ cr[j]? = some v := by
  have h := diff_uncovered_incomplete_stores_raw 1
    ⟨"h.disks", ["read_ios"], [[.intv .w64 7]]⟩ []
    none ⟨"h.disks", ["read_ios"], [[.intv .w64 0]]⟩ [("h.disks", [[.intv .w64 7]])]
    (by simp [DiffFromLast, diffTable, diffRow, diffVal_self, zeroOf,
      cacheFind, cacheSet])
    (by simp [cacheFind, shapeCovered])
  simpa using h

/-- C8: `DiffFromLast` mutates its argument in place: the mutated table
keeps the name, columns and shape of the input; when the result is complete
the returned table is exactly the mutated table; and regardless of the
returned value (even when it is the incomplete signal `nil`), every cell of
the caller's table has been overwritten with the computed value — the diff
of the raw cell against its cached predecessor, or against itself when
there is none — so no raw copy of the numeric cells survives the call. -/
theorem diff_mutates_argument (f : ℚ) (s : Series) (last : Cache)
    (res : Option Series) (s' : Series) (last' : Cache)
    (h : DiffFromLast f s last = some (res, s', last')) :
    s'.Name = s.Name ∧ s'.Columns = s.Columns ∧
    s'.Points.length = s.Points.length ∧
    (∀ t, res = some t → t = s') ∧ (res = none ∨ res = some s') ∧
    ∀ (i j : Nat) (r : List Value) (v : Value),
      s.Points[i]? = some r → r[j]? = some v →
      ∃ dr, s'.Points[i]? = some dr ∧
        dr[j]? = diffVal f v (((((cacheFind last s.Name).getD [])[i]?).getD [])[j]?.getD v) := by
  obtain ⟨pts, crows, inc, ht, hs', hres, hlast'⟩ :=
    DiffFromLast_eq_some f s last res s' last' h
  obtain ⟨hlen, _, _, hrow⟩ :=
    diffTable_spec f s.Points ((cacheFind last s.Name).getD []) pts crows inc ht
  subst hs'
  refine ⟨rfl, rfl, hlen, ?_, ?_, ?_⟩
  · intro t ht'
    rw [hres] at ht'
    by_cases hi : inc = true
    · simp [hi] at ht'
    · simp [hi] at ht'
      exact ht'.symm
  · rw [hres]
    by_cases hi : inc = true
    · simp [hi]
    · simp [hi]
  · intro i j r v hi hj
    obtain ⟨dr, cr, i', hdr, hget⟩ := hrow i r hi
    obtain ⟨_, _, _, hcell⟩ := diffRow_spec f r _ dr cr i' hdr
    exact ⟨dr, hget, hcell j v hj⟩

/-- C8 witness: complete lap on a cached one-cell table; the returned table
is the mutated one and the cell was overwritten with the computed delta. -/
theorem diff_mutates_argument_witness :
    (Series.mk "h.cpu" ["total"] [[Value.uintv .w64 8]]).Name = "h.cpu" ∧
    (Series.mk "h.cpu" ["total"] [[Value.uintv .w64 8]]).Columns = ["total"] ∧
    (Series.mk "h.cpu" ["total"] [[Value.uintv .w64 8]]).Points.length
      = (Series.mk "h.cpu" ["total"] [[Value.uintv .w64 10]]).Points.length ∧
    (∀ t, (some (Series.mk "h.cpu" ["total"] [[Value.uintv .w64 8]]) : Option Series)
        = some t → t = Series.mk "h.cpu" ["total"] [[Value.uintv .w64 8]]) ∧
    ((some (Series.mk "h.cpu" ["total"] [[Value.uintv .w64 8]]) : Option Series) = none ∨
      (some (Series.mk "h.cpu" ["total"] [[Value.uintv .w64 8]]) : Option Series)
        = some (Series.mk "h.cpu" ["total"] [[Value.uintv .w64 8]])) ∧
    ∀ (i j : Nat) (r : List Value) (v : Value),
      (Series.mk "h.cpu" ["total"] [[Value.uintv .w64 10]]).Points[i]? = some r →
      r[j]? = some v →
      ∃ dr, (Series.mk "h.cpu" ["total"] [[Value.uintv .w64 8]]).Points[i]? = some dr ∧
        dr[j]? = diffVal 1 v
          (((((cacheFind [("h.cpu", [[Value.uintv .w64 2]])] "h.cpu").getD
            [])[i]?).getD [])[j]?.getD v) := by
  have h := diff_mutates_argument 1 ⟨"h.cpu", ["total"], [[.uintv .w64 10]]⟩
    [("h.cpu", [[.uintv .w64 2]])]
    (some ⟨"h.cpu", ["total"], [[.uintv .w64 8]]⟩)
    ⟨"h.cpu", ["total"], [[.uintv .w64 8]]⟩
    [("h.cpu", [[.uintv .w64 10]])]
    (by simp [DiffFromLast, diffTable, diffRow, diffVal, cacheFind, cacheSet,
      wrapU, truncQ, Width.bits])
  simpa using h

/-- C9: the snapshot cache only ever grows.  After a call of `DiffFromLast`
the cached row list for the table's name is at least as long as before;
rows the table no longer presents persist unchanged; cells beyond the end
of a (shortened) row persist unchanged; a table whose shape is covered by
the cache raises no incomplete signal (disappeared rows never do); and a
cell that reappears at an index whose cached (possibly stale) value `o`
still exists is diffed against `o`. -/
theorem cache_only_grows (f : ℚ) (s : Series) (last : Cache)
    (res : Option Series) (s' : Series) (last' : Cache)
    (old : List (List Value)) (hold : old = (cacheFind last s.Name).getD [])
    (h : DiffFromLast f s last = some (res, s', last')) :
    ∃ crows, cacheFind last' s.Name = some crows ∧
      old.length ≤ crows.length ∧
      (∀ i : Nat, s.Points.length ≤ i → crows[i]? = old[i]?) ∧
      (∀ (i j : Nat) (r orow : List Value),
        s.Points[i]? = some r → old[i]? = some orow → r.length ≤ j →
        ∃ cr, crows[i]? = some cr ∧ cr[j]? = orow[j]?) ∧
      (shapeCovered s.Points old = true → res = some s') ∧
      (∀ (i j : Nat) (r : List Value) (v o : Value),
        s.Points[i]? = some r → r[j]? = some v →
        ((old[i]?).getD [])[j]? = some o →
        ∃ dr, s'.Points[i]? = some dr ∧ dr[j]? = diffVal f v o) := by
  obtain ⟨pts, crows, inc, ht, hs', hres, hlast'⟩ :=
    DiffFromLast_eq_some f s last res s' last' h
  rw [← hold] at ht
  obtain ⟨hlen, hcp, hinc, hrow⟩ := diffTable_spec f s.Points old pts crows inc ht
  subst hcp hlast'
  refine ⟨cacheMerge s.Points old, by rw [hold]; exact cacheFind_cacheSet_self _ _ _,
    by simp [cacheMerge_length], cacheMerge_get_ge s.Points old, ?_, ?_, ?_⟩
  · intro i j r orow hi hio hjr
    refine ⟨cacheMergeRow r ((old[i]?).getD []),
      cacheMerge_get_some s.Points old i r hi, ?_⟩
    rw [cacheMergeRow_get_ge r _ j hjr, hio]
    simp
  · intro hcov
    rw [hres, hinc, hcov]
    simp
  · intro i j r v o hi hj ho
    obtain ⟨dr, cr, i', hdr, hget⟩ := hrow i r hi
    obtain ⟨_, _, _, hcell⟩ := diffRow_spec f r _ dr cr i' hdr
    refine ⟨dr, by simp [hs', hget], ?_⟩
    have := hcell j v hj
    rw [ho] at this
    simpa using this

/-- C9 witness: the cache holds two stale rows, the table presents only the
first; the call is complete, the second cached row persists, and a
reappearing first cell is diffed against the stale value `2`. -/
theorem cache_only_grows_witness :
    ∃ crows, cacheFind [("h.disks", [[Value.intv .w64 9], [Value.intv .w64 30]])]
        "h.disks" = some crows ∧
      ([[Value.intv .w64 2], [Value.intv .w64 30]] : List (List Value)).length
        ≤ crows.length ∧
      (∀ i : Nat, (Series.mk "h.disks" ["read_ios"] [[.intv .w64 9]]).Points.length
        ≤ i → crows[i]? = ([[Value.intv .w64 2], [Value.intv .w64 30]] :
          List (List Value))[i]?) ∧
      (∀ (i j : Nat) (r orow : List Value),
        (Series.mk "h.disks" ["read_ios"] [[.intv .w64 9]]).Points[i]? = some r →
        ([[Value.intv .w64 2], [Value.intv .w64 30]] :
          List (List Value))[i]? = some orow → r.length ≤ j →
        ∃ cr, crows[i]? = some cr ∧ cr[j]? = orow[j]?) ∧
      (shapeCovered [[Value.intv .w64 9]]
          [[Value.intv .w64 2], [Value.intv .w64 30]] = true →
        some (Series.mk "h.disks" ["read_ios"] [[.intv .w64 7]])
          = some (Series.mk "h.disks" ["read_ios"] [[.intv .w64 7]])) ∧
      (∀ (i j : Nat) (r : List Value) (v o : Value),
        (Series.mk "h.disks" ["read_ios"] [[.intv .w64 9]]).Points[i]? = some r →
        r[j]? = some v →
        ((([[Value.intv .w64 2], [Value.intv .w64 30]] :
          List (List Value))[i]?).getD [])[j]? = some o →
        ∃ dr, (Series.mk "h.disks" ["read_ios"] [[.intv .w64 7]]).Points[i]?
            = some dr ∧ dr[j]? = diffVal 1 v o) := by
  have h := cache_only_grows 1 ⟨"h.disks", ["read_ios"], [[.intv .w64 9]]⟩
    [("h.disks", [[.intv .w64 2], [.intv .w64 30]])]
    (some ⟨"h.disks", ["read_ios"], [[.intv .w64 7]]⟩)
    ⟨"h.disks", ["read_ios"], [[.intv .w64 7]]⟩
    [("h.disks", [[.intv .w64 9], [.intv .w64 30]])]
    [[.intv .w64 2], [.intv .w64 30]] (by simp [cacheFind])
    (by simp [DiffFromLast, diffTable, diffRow, diffVal, cacheFind, cacheSet,
      wrapS, truncQ, Width.bits])
  simpa using h

/-- C4: a counter-based cell with previous snapshot `r1` and new raw `r2`
is reported as `(r2 - r1) * f` truncated back to the cell's native integer
width, for both unsigned and signed cells (the bounds hypotheses say the
values and the scaled delta fit the width, so the conversions are exact). -/
theorem diff_counter_delta_scaled (f : ℚ) (s : Series) (last : Cache)
    (res : Option Series) (s' : Series) (last' : Cache)
    (h : DiffFromLast f s last = some (res, s', last'))
    (i j : Nat) (r : List Value) (hi : s.Points[i]? = some r) :
    (∀ (w : Width) (r1 r2 : Nat), r[j]? = some (.uintv w r2) →
      ((((cacheFind last s.Name).getD [])[i]?).getD [])[j]? = some (.uintv w r1) →
      r1 ≤ r2 → r2 < 2 ^ w.bits → 0 ≤ f →
      truncQ (f * ((r2 - r1 : ℕ) : ℚ)) < (2 : ℤ) ^ w.bits →
      ∃ dr, s'.Points[i]? = some dr ∧
        dr[j]? = some (.uintv w (truncQ (f * ((r2 - r1 : ℕ) : ℚ))).toNat)) ∧
    (∀ (w : Width) (r1 r2 : Int), r[j]? = some (.intv w r2) →
      ((((cacheFind last s.Name).getD [])[i]?).getD [])[j]? = some (.intv w r1) →
      -(2 ^ (w.bits - 1)) ≤ r2 - r1 → r2 - r1 < 2 ^ (w.bits - 1) →
      -(2 ^ (w.bits - 1)) ≤ truncQ (f * ((r2 - r1 : ℤ) : ℚ)) →
      truncQ (f * ((r2 - r1 : ℤ) : ℚ)) < 2 ^ (w.bits - 1) →
      ∃ dr, s'.Points[i]? = some dr ∧
        dr[j]? = some (.intv w (truncQ (f * ((r2 - r1 : ℤ) : ℚ))))) := by
  obtain ⟨pts, crows, inc, ht, hs', hres, hlast'⟩ :=
    DiffFromLast_eq_some f s last res s' last' h
  obtain ⟨_, _, _, hrow⟩ :=
    diffTable_spec f s.Points ((cacheFind last s.Name).getD []) pts crows inc ht
  obtain ⟨dr, cr, i', hdr, hget⟩ := hrow i r hi
  obtain ⟨_, _, _, hcell⟩ := diffRow_spec f r _ dr cr i' hdr
  constructor
  · intro w r1 r2 hj hprev h12 hr2 hf hd
    refine ⟨dr, by simp [hs', hget], ?_⟩
    have := hcell j (.uintv w r2) hj
    rw [hprev] at this
    rw [this]
    simpa using diffVal_uint_delta f w r1 r2 h12 hr2 hf hd
  · intro w r1 r2 hj hprev hlo hhi hlo' hhi'
    refine ⟨dr, by simp [hs', hget], ?_⟩
    have := hcell j (.intv w r2) hj
    rw [hprev] at this
    rw [this]
    simpa using diffVal_int_delta f w r1 r2 hlo hhi hlo' hhi'

/-- C4 witness: unsigned `total` counter `100 → 150` at factor `60` gives
`3000`; signed counter `100 → 150` at factor `1` gives `50`. -/
theorem diff_counter_delta_scaled_witness :
    (∃ dr, (Series.mk "h.cpu" ["total"] [[Value.uintv .w64 3000]]).Points[0]?
        = some dr ∧ dr[0]? = some (Value.uintv .w64 3000)) ∧
    (∃ dr, (Series.mk "h.net" ["recv_bytes"] [[Value.intv .w64 50]]).Points[0]?
        = some dr ∧ dr[0]? = some (Value.intv .w64 50)) := by
  constructor
  · have h := (diff_counter_delta_scaled 60
      ⟨"h.cpu", ["total"], [[.uintv .w64 150]]⟩ [("h.cpu", [[.uintv .w64 100]])]
      (some ⟨"h.cpu", ["total"], [[.uintv .w64 3000]]⟩)
      ⟨"h.cpu", ["total"], [[.uintv .w64 3000]]⟩
      [("h.cpu", [[.uintv .w64 150]])]
      (by simp [DiffFromLast, diffTable, diffRow, diffVal, cacheFind, cacheSet,
        wrapU, truncQ, Width.bits]; norm_num; decide)
      0 0 [.uintv .w64 150] rfl).1 .w64 100 150 rfl (by simp [cacheFind])
      (by norm_num) (by simp [Width.bits]) (by norm_num)
      (by rw [show ((150 - 100 : ℕ) : ℚ) = 50 by norm_num]
          rw [show (60 : ℚ) * 50 = 3000 by norm_num]
          simp [truncQ, Width.bits])
    have e : (truncQ ((60 : ℚ) * ((150 - 100 : ℕ) : ℚ))).toNat = 3000 := by
      rw [show ((150 - 100 : ℕ) : ℚ) = 50 by norm_num]
      rw [show (60 : ℚ) * 50 = 3000 by norm_num]
      simp [truncQ]
    exact e ▸ h
  · have h := (diff_counter_delta_scaled 1
      ⟨"h.net", ["recv_bytes"], [[.intv .w64 150]]⟩ [("h.net", [[.intv .w64 100]])]
      (some ⟨"h.net", ["recv_bytes"], [[.intv .w64 50]]⟩)
      ⟨"h.net", ["recv_bytes"], [[.intv .w64 50]]⟩
      [("h.net", [[.intv .w64 150]])]
      (by simp [DiffFromLast, diffTable, diffRow, diffVal, cacheFind, cacheSet,
        wrapS, truncQ, Width.bits])
      0 0 [.intv .w64 150] rfl).2 .w64 100 150 rfl (by simp [cacheFind])
      (by norm_num [Width.bits]) (by norm_num [Width.bits])
      (by rw [show ((150 - 100 : ℤ) : ℚ) = 50 by norm_num]
          rw [one_mul]
          norm_num [truncQ, Width.bits])
      (by rw [show ((150 - 100 : ℤ) : ℚ) = 50 by norm_num]
          rw [one_mul]
          norm_num [truncQ, Width.bits])
    have e : truncQ ((1 : ℚ) * ((150 - 100 : ℤ) : ℚ)) = 50 := by
      rw [show ((150 - 100 : ℤ) : ℚ) = 50 by norm_num]
      rw [one_mul]
      simp [truncQ]
    exact e ▸ h

/-- C10: for an unsigned cell whose new raw value `n` is smaller than the
cached previous value `p` (a counter reset), the subtraction wraps modulo
`2^w` in the cell's width before scaling: the reported value is the scaled
image of the positive wrapped difference `2^w + n - p`, the call neither
errors nor reports a negative value, and the result is still complete. -/
theorem diff_unsigned_wraparound (f : ℚ) (name : String) (cols : List String)
    (w : Width) (p n : Nat) (last : Cache)
    (hfind : cacheFind last name = some [[.uintv w p]])
    (hp : p < 2 ^ w.bits) (hn : n < p) (hf : 0 ≤ f)
    (hd : truncQ (f * ((2 ^ w.bits + n - p : ℕ) : ℚ)) < (2 : ℤ) ^ w.bits) :
    DiffFromLast f ⟨name, cols, [[.uintv w n]]⟩ last
      = some (some ⟨name, cols,
            [[.uintv w (truncQ (f * ((2 ^ w.bits + n - p : ℕ) : ℚ))).toNat]]⟩,
          ⟨name, cols,
            [[.uintv w (truncQ (f * ((2 ^ w.bits + n - p : ℕ) : ℚ))).toNat]]⟩,
          cacheSet last name [[.uintv w n]]) ∧
    0 < 2 ^ w.bits + n - p := by
  have hcell := diffVal_uint_wrap f w p n hp hn hf hd
  constructor
  · simp [DiffFromLast, hfind, diffTable, diffRow, hcell, cacheMergeRow]
  · have : p < 2 ^ w.bits + n := Nat.lt_of_lt_of_le hp (Nat.le_add_right _ _)
    omega

/-- C10 witness: a `uint32` counter resets from `100` down to `50` with
factor `1`; the reported delta is `2^32 - 50 = 4294967246`, still a
complete result. -/
theorem diff_unsigned_wraparound_witness :
    DiffFromLast 1 ⟨"h.net", ["recv_bytes"], [[Value.uintv .w32 50]]⟩
        [("h.net", [[Value.uintv .w32 100]])]
      = some (some ⟨"h.net", ["recv_bytes"], [[Value.uintv .w32 4294967246]]⟩,
          ⟨"h.net", ["recv_bytes"], [[Value.uintv .w32 4294967246]]⟩,
          [("h.net", [[Value.uintv .w32 50]])]) ∧
    0 < 2 ^ Width.w32.bits + 50 - 100 := by
  have e : (truncQ ((1 : ℚ) * ((2 ^ Width.w32.bits + 50 - 100 : ℕ) : ℚ))).toNat
      = 4294967246 := by
    rw [show ((2 ^ Width.w32.bits + 50 - 100 : ℕ) : ℚ) = 4294967246 by
      simp [Width.bits]]
    rw [one_mul]
    simp [truncQ]
  have h := diff_unsigned_wraparound 1 "h.net" ["recv_bytes"] .w32 100 50
    [("h.net", [[Value.uintv .w32 100]])] (by simp [cacheFind])
    (by simp [Width.bits]) (by norm_num) (by norm_num)
    (by rw [show ((2 ^ Width.w32.bits + 50 - 100 : ℕ) : ℚ) = 4294967246 by
          simp [Width.bits]]
        rw [one_mul]
        simp [truncQ, Width.bits])
  have h' := e ▸ h
  simpa [cacheSet] using h'

/-- C1: the claim that every configured sampler writes exactly one value to
the result channel is violated by the code: when `/proc/net/dev` cannot be
opened, `network` does `return err` (main.go:455-457) without writing
anything, so its send list is empty instead of the single `nil` failure
result the claim requires (the fan-in loop of `main`, which waits for
exactly N results, then blocks forever).  `disks` and `mounts` have the
same open-failure path, and `mounts` also returns silently on a statfs
error. -/
theorem network_open_failure_sends_nothing :
    network "host." .openFailure 1 [] = some ([], []) ∧
    ([] : List (Option Series)).length ≠ 1 := by
  constructor
  · simp [network]
  · decide

/-- C3 counterexample: in non-daemon mode an incomplete lap (a `nil` result
arrived) does sleep the configured interval before the retry lap: the code
runs `time.Sleep` whenever `daemonFlag || first` (main.go:244-246), and the
retry sets `first`.  The claim's "no sleep between the incomplete lap and
its retry" is therefore false. -/
theorem nondaemon_incomplete_lap_sleeps_counterexample :
    (lapStep false [none]).again = true ∧ (lapStep false [none]).slept = true := by
  constructor <;> rfl

/-- C3 (amended): in non-daemon (single-shot) mode, whenever a lap is
incomplete the lap's data is suppressed and the sampling loop runs again —
but only after sleeping the configured interval, exactly as between daemon
laps; the retry is not immediate. -/
theorem nondaemon_incomplete_lap_retries_after_sleep
    (results : List (Option Series)) (hinc : results.any Option.isNone = true) :
    lapStep false results = ⟨none, true, true⟩ := by
  simp [lapStep, fanIn, hinc]

/-- C3 witness: one failed sampler in non-daemon mode. -/
theorem nondaemon_incomplete_lap_retries_after_sleep_witness :
    lapStep false [none] = ⟨none, true, true⟩ :=
  nondaemon_incomplete_lap_retries_after_sleep [none] rfl

/-- C6: the non-counter families `mem`, `swap`, `uptime`, `load` and
`mounts` send the table exactly as the sampler built it — the raw sampled
values — and leave the snapshot cache untouched; `DiffFromLast` is never
involved. -/
theorem noncounter_families_raw_passthrough (pfx : String) (last : Cache)
    (m : MemT) (sw : SwapT) (up : ℚ) (l1 l5 l15 : ℚ)
    (lines : List String) (statfs : List (String × StatfsT))
    (pts : List (List Value)) (hscan : mountsScan statfs lines = some pts) :
    mem pfx (some m) last
      = some ([some ⟨pfx ++ "mem",
          ["free", "used", "actualfree", "actualused", "total"],
          [[u64 m.Free, u64 m.Used, u64 m.ActualFree, u64 m.ActualUsed,
            u64 m.Total]]⟩], last) ∧
    swap pfx (some sw) last
      = some ([some ⟨pfx ++ "swap", ["free", "used", "total"],
          [[u64 sw.Free, u64 sw.Used, u64 sw.Total]]⟩], last) ∧
    uptime pfx (some up) last
      = some ([some ⟨pfx ++ "uptime", ["length"], [[.float up]]⟩], last) ∧
    load pfx (some (l1, l5, l15)) last
      = some ([some ⟨pfx ++ "load", ["one", "five", "fifteen"],
          [[.float l1, .float l5, .float l15]]⟩], last) ∧
    mounts pfx (.ok lines) statfs last
      = some ([some ⟨pfx ++ "mounts", ["mountpoint", "disk", "free", "total"],
          pts⟩], last) := by
  refine ⟨rfl, rfl, rfl, rfl, ?_⟩
  simp [mounts, hscan]

/-- C6 witness: concrete inputs for all five non-counter families (an empty
mount list), against a nonempty cache that is returned untouched. -/
theorem noncounter_families_raw_passthrough_witness :
    mem "h." (some ⟨1, 2, 3, 4, 5⟩) [("h.cpu", [])]
      = some ([some ⟨"h." ++ "mem",
          ["free", "used", "actualfree", "actualused", "total"],
          [[u64 1, u64 2, u64 3, u64 4, u64 5]]⟩], [("h.cpu", [])]) ∧
    swap "h." (some ⟨6, 7, 8⟩) [("h.cpu", [])]
      = some ([some ⟨"h." ++ "swap", ["free", "used", "total"],
          [[u64 6, u64 7, u64 8]]⟩], [("h.cpu", [])]) ∧
    uptime "h." (some 99) [("h.cpu", [])]
      = some ([some ⟨"h." ++ "uptime", ["length"], [[.float 99]]⟩],
          [("h.cpu", [])]) ∧
    load "h." (some (1, 2, 3)) [("h.cpu", [])]
      = some ([some ⟨"h." ++ "load", ["one", "five", "fifteen"],
          [[.float 1, .float 2, .float 3]]⟩], [("h.cpu", [])]) ∧
    mounts "h." (.ok []) [] [("h.cpu", [])]
      = some ([some ⟨"h." ++ "mounts", ["mountpoint", "disk", "free", "total"],
          []⟩], [("h.cpu", [])]) :=
  noncounter_families_raw_passthrough "h." [("h.cpu", [])]
    ⟨1, 2, 3, 4, 5⟩ ⟨6, 7, 8⟩ 99 1 2 3 [] [] [] rfl

end SysinfoInfluxdb
